import Mathlib

set_option maxHeartbeats 1000000

/-!
Shallow embedding of `src/server/utils/fileUtils.js` (photo/memory sharing
backend file utilities), together with theorems checking the natural-language
specification of the module against it.

Modelling conventions:
* A filesystem path is its list of segments (`path.join a b` appends a
  segment, `path.dirname` drops the last segment).
* The filesystem state `FS` records which paths currently exist as regular
  files and which as directories.
* External, non-deterministic effects (the `sharp` image library, env vars,
  the possibility that an `unlink` of an existing entry fails) are supplied
  by an `Env` oracle, so theorems quantify over every possible behaviour of
  the outside world.
* JavaScript exceptions are an explicit `Except Err` channel; a `try/catch`
  in the source becomes a `match` on that channel.  Each operation also
  returns the filesystem state as of its completion (or as of the throw).
* Mutating filesystem events are logged in an `Ev` trace so that ordering
  properties ("the output is written before the original is deleted",
  "rmdir is only reached on an empty directory") can be stated.
-/

/-- A filesystem path, represented by its list of segments. -/
abbrev FPath := List String

/-- Filesystem state: the existing regular files and the existing directories. -/
structure FS where
  files : List FPath
  dirs : List FPath
deriving Repr, DecidableEq

/-- Whether `p` exists as a regular file. -/
def FS.fileExists (fs : FS) (p : FPath) : Bool := decide (p ∈ fs.files)

/-- Whether `p` exists as a directory. -/
def FS.dirExists (fs : FS) (p : FPath) : Bool := decide (p ∈ fs.dirs)

/-- `fs.existsSync(p)`: true for any existing entry, file or directory. -/
def FS.existsSync (fs : FS) (p : FPath) : Bool := fs.fileExists p || fs.dirExists p

/-- All nonempty ancestors of a path, outermost first, the path itself last. -/
def ancestors (p : FPath) : List FPath :=
  (List.range p.length).map (fun k => p.take (k + 1))

/-- The entries (files or directories) directly inside directory `d`. -/
def FS.childCount (fs : FS) (d : FPath) : Nat :=
  ((fs.files ++ fs.dirs).filter (fun q => decide (q ≠ [] ∧ q.dropLast = d))).length

/-- The errors the module can raise. -/
inductive Err where
  | required
  | enoent
  | eexist
  | eisdir
  | enotempty
  | eperm
  | sharpMetaErr
  | sharpResizeErr
  | statErr
deriving Repr, DecidableEq

/-- The message carried by each error object. -/
def Err.message : Err → String
  | .required => "targetDir and baseName are required for processImage"
  | .enoent => "ENOENT: no such file or directory"
  | .eexist => "EEXIST: file already exists"
  | .eisdir => "EISDIR: illegal operation on a directory"
  | .enotempty => "ENOTEMPTY: directory not empty"
  | .eperm => "EPERM: operation not permitted"
  | .sharpMetaErr => "sharp: could not read image metadata"
  | .sharpResizeErr => "sharp: resize/encode failed"
  | .statErr => "stat failed"

/-- Mutating filesystem events, in the order they happen.
`rmdir d n` records that `fs.promises.rmdir(d)` was invoked while the
directory `d` held `n` entries; the other events record completed mutations. -/
inductive Ev where
  | mkdir (p : FPath)
  | writeFile (p : FPath)
  | unlink (p : FPath)
  | rmdir (p : FPath) (entries : Nat)
deriving Repr, DecidableEq

/-- Image metadata as reported by `sharp(..).metadata()`. -/
structure SharpMeta where
  width : Nat
  height : Nat
  format : String
deriving Repr, DecidableEq

/-- The external world: configuration, environment variables and the oracle
deciding the outcome of every call onto the image library or the OS. -/
structure Env where
  /-- `process.env.UPLOAD_DIR` (`none` when unset). -/
  uploadDirEnv : Option FPath
  /-- `FILE_STORAGE_CONFIG.TEMP_PHOTOS_DIR` from `../config.js`. -/
  tempPhotosDir : FPath
  /-- Outcome of `sharp(p).metadata()` on an existing file (`none`: it throws). -/
  metaResult : Option SharpMeta
  /-- Whether the `sharp` resize/encode pipeline succeeds. -/
  resizeOk : Bool
  /-- When the pipeline fails, whether a half-written output file is left behind. -/
  resizeLeavesOutput : Bool
  /-- Whether `fs.promises.stat` on the existing output succeeds. -/
  statOk : Bool
  /-- The size reported by a successful `stat`. -/
  statSize : Nat
  /-- Whether unlinking this existing file fails (e.g. EPERM/EBUSY). -/
  unlinkFails : FPath → Bool

/-- `fs.mkdirSync(p, { recursive: true })`: creates every missing ancestor;
fails when the path is empty or when a regular file blocks the chain. -/
def FS.mkdirRec (fs : FS) (p : FPath) : Except Err FS :=
  if p.isEmpty then .error .enoent
  else if (ancestors p).any (fun q => fs.fileExists q) then .error .eexist
  else .ok { fs with dirs := fs.dirs ++ (ancestors p).filter (fun q => !fs.dirExists q) }

/-- `fs.mkdirSync(p)` without `recursive`: fails if the entry already exists
or the parent directory is missing. -/
def FS.mkdirNonrec (fs : FS) (p : FPath) : Except Err FS :=
  if p.isEmpty then .error .enoent
  else if fs.existsSync p then .error .eexist
  else if !p.dropLast.isEmpty && !fs.dirExists p.dropLast then .error .enoent
  else .ok { fs with dirs := fs.dirs ++ [p] }

/-- `fs.unlinkSync(p)` / `fs.promises.unlink(p)`: removes a regular file;
fails on directories, on missing entries, and per the environment oracle. -/
def unlinkStep (env : Env) (fs : FS) (tr : List Ev) (p : FPath) :
    Except Err Unit × FS × List Ev :=
  if fs.fileExists p then
    if env.unlinkFails p then (.error .eperm, fs, tr)
    else (.ok (), { fs with files := fs.files.filter (fun q => decide (q ≠ p)) },
          tr ++ [.unlink p])
  else if fs.dirExists p then (.error .eisdir, fs, tr)
  else (.error .enoent, fs, tr)

/-- `ensureDir(dirPath)` from the source: create the directory (recursively)
when it does not exist, then return the path. -/
def ensureDir (fs : FS) (tr : List Ev) (dirPath : FPath) :
    Except Err FPath × FS × List Ev :=
  if fs.existsSync dirPath then (.ok dirPath, fs, tr)
  else
    match fs.mkdirRec dirPath with
    | .ok fs' => (.ok dirPath, fs', tr ++ [.mkdir dirPath])
    | .error e => (.error e, fs, tr)

/-- The statistics record returned by `ensureDirectoriesExist`. -/
structure Stats where
  created : Nat
  existing : Nat
  failed : Nat
deriving Repr, DecidableEq

/-- The options object of `ensureDirectoriesExist` (source defaults:
`silent = false`, `recursive = true`). -/
structure EnsureOpts where
  silent : Bool
  recursive : Bool
deriving Repr, DecidableEq

/-- The loop body of `ensureDirectoriesExist` for one directory: the whole
body sits in a `try/catch`, so a failing `mkdirSync` only bumps `failed`. -/
def ensureOne (recursive : Bool) (fs : FS) (st : Stats) (d : FPath) : FS × Stats :=
  if fs.existsSync d then (fs, { st with existing := st.existing + 1 })
  else
    match (if recursive then fs.mkdirRec d else fs.mkdirNonrec d) with
    | .ok fs' => (fs', { st with created := st.created + 1 })
    | .error _ => (fs, { st with failed := st.failed + 1 })

/-- The `for (const dir of directories)` loop of `ensureDirectoriesExist`. -/
def ensureLoop (recursive : Bool) : FS → Stats → List FPath → Stats × FS
  | fs, st, [] => (st, fs)
  | fs, st, d :: rest =>
    let r := ensureOne recursive fs st d
    ensureLoop recursive r.1 r.2 rest

/-- `ensureDirectoriesExist(directories, options)`: never throws, returns the
statistics record. -/
def ensureDirectoriesExist (directories : List FPath) (options : EnsureOpts)
    (fs : FS) : Stats × FS :=
  ensureLoop options.recursive fs ⟨0, 0, 0⟩ directories

/-- JavaScript `a || b` on the `UPLOAD_DIR` environment variable (an unset
or empty variable falls back to the configured directory). -/
def jsOrPath (a : Option FPath) (b : FPath) : FPath :=
  match a with
  | some p => if p.isEmpty then b else p
  | none => b

/-- `getUploadDir(userId, memoryId)`: joins the base upload directory with
`user_<userId>/memory_<memoryId>` and ensures it exists. -/
def getUploadDir (env : Env) (fs : FS) (userId memoryId : String) :
    Except Err FPath × FS × List Ev :=
  let baseUploadDir := jsOrPath env.uploadDirEnv env.tempPhotosDir
  let userDir := baseUploadDir ++ ["user_" ++ userId]
  let memoryDir := userDir ++ ["memory_" ++ memoryId]
  ensureDir fs [] memoryDir

/-- `sharp(originalPath).metadata()`: succeeds only on an existing file the
oracle deems a readable image. -/
def sharpMetadata (env : Env) (fs : FS) (origP : Option FPath) : Except Err SharpMeta :=
  match origP with
  | none => .error .sharpMetaErr
  | some p =>
    if fs.fileExists p then
      match env.metaResult with
      | some m => .ok m
      | none => .error .sharpMetaErr
    else .error .sharpMetaErr

/-- `sharp(originalPath).resize(..).webp(..).toFile(optP)`: needs a readable
source file and a writable destination; on failure the oracle decides whether
a half-written output is left behind. -/
def sharpResizeToFile (env : Env) (fs : FS) (tr : List Ev) (origP : Option FPath)
    (optP : FPath) : Except Err Unit × FS × List Ev :=
  match origP with
  | none => (.error .sharpResizeErr, fs, tr)
  | some p =>
    if fs.fileExists p && (fs.dirExists optP.dropLast && !fs.dirExists optP)
        && env.resizeOk then
      (.ok (), { fs with files := if fs.files.contains optP then fs.files
                                  else fs.files ++ [optP] },
       tr ++ [.writeFile optP])
    else if (fs.dirExists optP.dropLast && !fs.dirExists optP)
        && env.resizeLeavesOutput then
      (.error .sharpResizeErr,
       { fs with files := if fs.files.contains optP then fs.files
                          else fs.files ++ [optP] },
       tr ++ [.writeFile optP])
    else (.error .sharpResizeErr, fs, tr)

/-- `(await fs.promises.stat(p)).size`. -/
def statStep (env : Env) (fs : FS) (tr : List Ev) (p : FPath) :
    Except Err Nat × FS × List Ev :=
  if fs.fileExists p && env.statOk then (.ok env.statSize, fs, tr)
  else (.error .statErr, fs, tr)

/-- The options object of `processImage` (source defaults for the numeric
fields: `width = 2000`, `height = 2000`, `quality = 85`). -/
structure ImgOptions where
  inputPath : Option FPath
  targetDir : Option FPath
  baseName : Option String
  width : Nat
  height : Nat
  quality : Nat
deriving Repr, DecidableEq

/-- JavaScript falsiness of an optional path (`undefined` or `""`). -/
def pathFalsy : Option FPath → Bool
  | none => true
  | some p => p.isEmpty

/-- JavaScript falsiness of an optional string (`undefined` or `""`). -/
def strFalsy : Option String → Bool
  | none => true
  | some s => s.isEmpty

/-- The record returned by a successful `processImage`. -/
structure ProcessResult where
  processedPath : FPath
  width : Nat
  height : Nat
  format : String
  originalFormat : String
  size : Nat
deriving Repr, DecidableEq

/-- The `catch` block of `processImage`: remove a half-written output when
present (itself an unguarded `unlinkSync`), then rethrow. -/
def cleanupCatch (env : Env) (fs : FS) (tr : List Ev) (optP : FPath) (e : Err) :
    Except Err ProcessResult × FS × List Ev :=
  if fs.existsSync optP then
    match unlinkStep env fs tr optP with
    | (.ok _, fs', tr') => (.error e, fs', tr')
    | (.error e2, fs', tr') => (.error e2, fs', tr')
  else (.error e, fs, tr)

/-- The `if (fs.existsSync(originalPath)) fs.unlinkSync(originalPath)` step
of `processImage` (`existsSync` on `undefined` is simply false). -/
def unlinkOriginal (env : Env) (fs : FS) (tr : List Ev) :
    Option FPath → Except Err Unit × FS × List Ev
  | some p => if fs.existsSync p then unlinkStep env fs tr p else (.ok (), fs, tr)
  | none => (.ok (), fs, tr)

/-- The body of `processImage` after the argument check, with the target
directory and base name already extracted. -/
def processImageBody (env : Env) (o : ImgOptions) (fs : FS) (td : FPath)
    (bn : String) : Except Err ProcessResult × FS × List Ev :=
  match ensureDir fs [] td with
  | (.error e, fs1, tr1) => (.error e, fs1, tr1)
  | (.ok _, fs1, tr1) =>
    match sharpMetadata env fs1 o.inputPath with
    | .error e => cleanupCatch env fs1 tr1 (td ++ [bn ++ ".webp"]) e
    | .ok m =>
      match sharpResizeToFile env fs1 tr1 o.inputPath (td ++ [bn ++ ".webp"]) with
      | (.error e, fs2, tr2) => cleanupCatch env fs2 tr2 (td ++ [bn ++ ".webp"]) e
      | (.ok _, fs2, tr2) =>
        match unlinkOriginal env fs2 tr2 o.inputPath with
        | (.error e, fs3, tr3) => cleanupCatch env fs3 tr3 (td ++ [bn ++ ".webp"]) e
        | (.ok _, fs3, tr3) =>
          match statStep env fs3 tr3 (td ++ [bn ++ ".webp"]) with
          | (.error e, fs4, tr4) => cleanupCatch env fs4 tr4 (td ++ [bn ++ ".webp"]) e
          | (.ok sz, fs4, tr4) =>
            (.ok ⟨td ++ [bn ++ ".webp"], m.width, m.height, "webp", m.format, sz⟩,
             fs4, tr4)

/-- `processImage(options)`: argument check, `ensureDir(targetDir)`, then the
guarded metadata/resize/delete/stat sequence. -/
def processImage (env : Env) (o : ImgOptions) (fs : FS) :
    Except Err ProcessResult × FS × List Ev :=
  if pathFalsy o.targetDir || strFalsy o.baseName then (.error .required, fs, [])
  else processImageBody env o fs (o.targetDir.getD []) (o.baseName.getD "")

/-- A JavaScript value, as far as the deletion helpers inspect one. -/
inductive JVal where
  | jnull
  | jundef
  | jbool (b : Bool)
  | jnum (n : Int)
  | jstr (p : FPath)
  | jarr (elems : List JVal)

/-- `if (!Array.isArray(files)) files = [files]`. -/
def JVal.toElems : JVal → List JVal
  | .jarr xs => xs
  | v => [v]

/-- One iteration of the `for (const file of files)` loop of `deleteFiles`:
guard on `file && typeof file === "string"`, unlink an existing entry, and
swallow (only log) any error the unlink raises. -/
def deleteFileSwallow (env : Env) (fs : FS) (tr : List Ev) : JVal → FS × List Ev
  | .jstr p =>
    if !p.isEmpty then
      if fs.existsSync p then
        match unlinkStep env fs tr p with
        | (_, fs2, tr2) => (fs2, tr2)
      else (fs, tr)
    else (fs, tr)
  | _ => (fs, tr)

/-- The `for (const file of files)` loop of `deleteFiles`. -/
def deleteFilesLoop (env : Env) : FS → List Ev → List JVal → FS × List Ev
  | fs, tr, [] => (fs, tr)
  | fs, tr, f :: rest =>
    deleteFilesLoop env (deleteFileSwallow env fs tr f).1
      (deleteFileSwallow env fs tr f).2 rest

/-- `deleteFiles(files)`: wraps a non-array argument, then deletes each named
existing file, logging and swallowing every per-file error. -/
def deleteFiles (env : Env) (files : JVal) (fs : FS) : FS × List Ev :=
  deleteFilesLoop env fs [] files.toElems

/-- `deleteFile(filePath)`: `true` on a successful unlink, `false` on a falsy
or non-string argument or a missing entry; a failing unlink is rethrown. -/
def deleteFile (env : Env) (filePath : JVal) (fs : FS) :
    Except Err Bool × FS × List Ev :=
  match filePath with
  | .jstr p =>
    if !p.isEmpty then
      if fs.existsSync p then
        match unlinkStep env fs [] p with
        | (.ok _, fs', tr') => (.ok true, fs', tr')
        | (.error e, fs', tr') => (.error e, fs', tr')
      else (.ok false, fs, [])
    else (.ok false, fs, [])
  | _ => (.ok false, fs, [])

/-- `await fs.promises.readdir(d)`, reduced to the entry count the caller uses. -/
def readdirStep (fs : FS) (tr : List Ev) (d : FPath) : Except Err Nat × FS × List Ev :=
  if fs.dirExists d then (.ok (fs.childCount d), fs, tr)
  else (.error .enoent, fs, tr)

/-- `await fs.promises.rmdir(d)`: records the invocation (with the entry count
at that moment) and removes the directory only when it is empty. -/
def rmdirStep (fs : FS) (tr : List Ev) (d : FPath) : Except Err Unit × FS × List Ev :=
  if fs.dirExists d then
    if fs.childCount d == 0 then
      (.ok (), { fs with dirs := fs.dirs.filter (fun q => decide (q ≠ d)) },
       tr ++ [.rmdir d (fs.childCount d)])
    else (.error .enotempty, fs, tr ++ [.rmdir d (fs.childCount d)])
  else (.error .enoent, fs, tr ++ [.rmdir d (fs.childCount d)])

/-- `deleteFileAndEmptyParent(filePath)`: delete the file, read the parent
directory, and remove the parent only when it came back empty; every failure
is rethrown. -/
def deleteFileAndEmptyParent (env : Env) (filePath : JVal) (fs : FS) :
    Except Err Unit × FS × List Ev :=
  match filePath with
  | .jstr p =>
    if !p.isEmpty then
      if fs.existsSync p then
        match unlinkStep env fs [] p with
        | (.error e, fs1, tr1) => (.error e, fs1, tr1)
        | (.ok _, fs1, tr1) =>
          match readdirStep fs1 tr1 p.dropLast with
          | (.error e, fs2, tr2) => (.error e, fs2, tr2)
          | (.ok n, fs2, tr2) =>
            if n == 0 then
              match rmdirStep fs2 tr2 p.dropLast with
              | (.error e, fs3, tr3) => (.error e, fs3, tr3)
              | (.ok _, fs3, tr3) => (.ok (), fs3, tr3)
            else (.ok (), fs2, tr2)
      else (.ok (), fs, [])
    else (.ok (), fs, [])
  | _ => (.ok (), fs, [])

/-! ### Helper lemmas about the filesystem primitives -/

theorem not_mem_filter_ne (l : List FPath) (p : FPath) :
    p ∉ l.filter (fun q => decide (q ≠ p)) := by
  simp [List.mem_filter]

theorem mem_ancestors_length_le {q p : FPath} (h : q ∈ ancestors p) :
    q.length ≤ p.length := by
  unfold ancestors at h
  obtain ⟨k, _, rfl⟩ := List.mem_map.mp h
  simp only [List.length_take]
  omega

theorem self_mem_ancestors {p : FPath} (h : p ≠ []) : p ∈ ancestors p := by
  unfold ancestors
  refine List.mem_map.mpr ⟨p.length - 1, List.mem_range.mpr ?_, ?_⟩
  · have := List.length_pos.mpr h
    omega
  · have hpos := List.length_pos.mpr h
    have : p.length - 1 + 1 = p.length := by omega
    rw [this, List.take_length]

theorem unlinkStep_ok {env : Env} {fs : FS} {tr : List Ev} {p : FPath} {u : Unit}
    {fs' : FS} {tr' : List Ev}
    (h : unlinkStep env fs tr p = (.ok u, fs', tr')) :
    fs.fileExists p = true ∧ env.unlinkFails p = false ∧
    fs' = { fs with files := fs.files.filter (fun q => decide (q ≠ p)) } ∧
    tr' = tr ++ [.unlink p] := by
  unfold unlinkStep at h
  split at h
  · split at h
    · simp at h
    · simp_all
  · split at h <;> simp_all

theorem unlinkStep_ok_not_fileExists {env : Env} {fs : FS} {tr : List Ev} {p : FPath}
    {u : Unit} {fs' : FS} {tr' : List Ev}
    (h : unlinkStep env fs tr p = (.ok u, fs', tr')) :
    fs'.fileExists p = false := by
  obtain ⟨-, -, rfl, -⟩ := unlinkStep_ok h
  simp only [FS.fileExists, decide_eq_false_iff_not]
  exact not_mem_filter_ne fs.files p

theorem mkdirRec_ok_inv {fs : FS} {d : FPath} {fs2 : FS} (h : fs.mkdirRec d = .ok fs2) :
    d ≠ [] ∧ fs2.files = fs.files ∧
    fs2.dirs = fs.dirs ++ (ancestors d).filter (fun q => !fs.dirExists q) := by
  unfold FS.mkdirRec at h
  split at h
  · simp at h
  · split at h
    · simp at h
    · rename_i hne _
      simp only [Except.ok.injEq] at h
      subst h
      exact ⟨by simpa [List.isEmpty_iff] using hne, rfl, rfl⟩

theorem ensureDir_ok_inv {fs : FS} {tr : List Ev} {d r : FPath} {fs' : FS} {tr' : List Ev}
    (h : ensureDir fs tr d = (.ok r, fs', tr')) :
    r = d ∧ fs'.files = fs.files ∧
    ((fs.existsSync d = true ∧ fs' = fs ∧ tr' = tr) ∨
     (fs.existsSync d = false ∧ d ≠ [] ∧
      fs'.dirs = fs.dirs ++ (ancestors d).filter (fun q => !fs.dirExists q) ∧
      tr' = tr ++ [.mkdir d])) := by
  unfold ensureDir at h
  split at h
  · simp_all
  · rename_i hex
    split at h
    · rename_i fs2 heq
      obtain ⟨hne, hfiles, hdirs⟩ := mkdirRec_ok_inv heq
      simp only [Prod.mk.injEq, Except.ok.injEq] at h
      obtain ⟨hr, hfs, htr⟩ := h
      subst hfs
      exact ⟨hr.symm, hfiles, Or.inr ⟨by simpa using hex, hne, hdirs, htr.symm⟩⟩
    · simp at h

theorem ensureDir_dirExists_of_longer {fs : FS} {tr : List Ev} {d r : FPath}
    {fs' : FS} {tr' : List Ev}
    (h : ensureDir fs tr d = (.ok r, fs', tr')) (q : FPath) (hq : d.length < q.length) :
    fs'.dirExists q = fs.dirExists q := by
  obtain ⟨-, -, hcase⟩ := ensureDir_ok_inv h
  rcases hcase with ⟨-, rfl, -⟩ | ⟨-, -, hdirs, -⟩
  · rfl
  · simp only [FS.dirExists, hdirs, List.mem_append, List.mem_filter]
    have : q ∉ ancestors d := fun hm => absurd (mem_ancestors_length_le hm) (by omega)
    simp [this]

theorem error_triple_ne_ok {α : Type} {e : Err} {r : α} {a b : FS} {c d : List Ev} :
    ((Except.error e : Except Err α), a, c) ≠ (Except.ok r, b, d) := by
  intro hcontra
  have hfst := congrArg Prod.fst hcontra
  exact Except.noConfusion hfst

theorem cleanupCatch_ne_ok {env : Env} {fs : FS} {tr : List Ev} {optP : FPath} {e : Err}
    {r : ProcessResult} {fs' : FS} {tr' : List Ev} :
    cleanupCatch env fs tr optP e ≠ (.ok r, fs', tr') := by
  unfold cleanupCatch
  split
  · split
    · exact error_triple_ne_ok
    · exact error_triple_ne_ok
  · exact error_triple_ne_ok

theorem cleanupCatch_clean {env : Env} {fs : FS} {tr : List Ev} {optP : FPath} (e : Err)
    (hno : env.unlinkFails optP = false) (hnd : fs.dirExists optP = false) :
    ∃ fs' tr', cleanupCatch env fs tr optP e = (.error e, fs', tr') ∧
      fs'.fileExists optP = false := by
  unfold cleanupCatch
  by_cases hf : fs.fileExists optP = true
  · have hex : fs.existsSync optP = true := by simp [FS.existsSync, hf]
    rw [if_pos hex]
    unfold unlinkStep
    rw [if_pos hf, if_neg (by simp [hno])]
    refine ⟨_, _, rfl, ?_⟩
    simp only [FS.fileExists, decide_eq_false_iff_not]
    exact not_mem_filter_ne fs.files optP
  · have hex : fs.existsSync optP = false := by
      simp only [FS.existsSync, hnd, Bool.or_false]
      simpa using hf
    rw [if_neg (by simp [hex])]
    exact ⟨fs, tr, rfl, by simpa using hf⟩

theorem sharpMetadata_ok {env : Env} {fs : FS} {origP : Option FPath} {m : SharpMeta}
    (h : sharpMetadata env fs origP = .ok m) :
    ∃ p, origP = some p ∧ fs.fileExists p = true ∧ env.metaResult = some m := by
  cases origP with
  | none => simp [sharpMetadata] at h
  | some p =>
    simp only [sharpMetadata] at h
    split at h
    · rename_i hf
      split at h
      · rename_i m' hm
        simp only [Except.ok.injEq] at h
        subst h
        exact ⟨p, rfl, hf, hm⟩
      · simp at h
    · simp at h

theorem sharpResizeToFile_ok {env : Env} {fs : FS} {tr : List Ev} {origP : Option FPath}
    {optP : FPath} {u : Unit} {fs' : FS} {tr' : List Ev}
    (h : sharpResizeToFile env fs tr origP optP = (.ok u, fs', tr')) :
    ∃ p, origP = some p ∧ fs.fileExists p = true ∧ env.resizeOk = true ∧
      fs.dirExists optP.dropLast = true ∧ fs.dirExists optP = false ∧
      fs' = { fs with files := if fs.files.contains optP then fs.files
                               else fs.files ++ [optP] } ∧
      tr' = tr ++ [.writeFile optP] := by
  cases origP with
  | none => simp [sharpResizeToFile] at h
  | some p =>
    simp only [sharpResizeToFile] at h
    split at h
    · rename_i hcond
      simp only [Bool.and_eq_true] at hcond
      simp only [Prod.mk.injEq, Except.ok.injEq] at h
      exact ⟨p, rfl, hcond.1.1, hcond.2, hcond.1.2.1, by simpa using hcond.1.2.2,
        h.2.1.symm, h.2.2.symm⟩
    · split at h
      · exact absurd h error_triple_ne_ok
      · exact absurd h error_triple_ne_ok

theorem statStep_ok {env : Env} {fs : FS} {tr : List Ev} {p : FPath} {sz : Nat}
    {fs' : FS} {tr' : List Ev}
    (h : statStep env fs tr p = (.ok sz, fs', tr')) :
    fs.fileExists p = true ∧ env.statOk = true ∧ sz = env.statSize ∧
    fs' = fs ∧ tr' = tr := by
  unfold statStep at h
  split at h
  · rename_i hcond
    simp only [Bool.and_eq_true] at hcond
    simp only [Prod.mk.injEq, Except.ok.injEq] at h
    exact ⟨hcond.1, hcond.2, h.1.symm, h.2.1.symm, h.2.2.symm⟩
  · exact absurd h error_triple_ne_ok

theorem unlinkOriginal_of_fileExists {env : Env} {fs : FS} {tr : List Ev} {p : FPath}
    (hf : fs.fileExists p = true) :
    unlinkOriginal env fs tr (some p) = unlinkStep env fs tr p := by
  simp [unlinkOriginal, FS.existsSync, hf]

/-- Full inversion of a successful `processImage` run: what must have been
true of the options, the environment and the filesystem, and what the final
state and trace look like. -/
theorem processImage_ok_inv {env : Env} {o : ImgOptions} {fs : FS}
    {r : ProcessResult} {fs' : FS} {tr : List Ev}
    (h : processImage env o fs = (.ok r, fs', tr)) :
    ∃ td bn p m fs1 tr1,
      o.targetDir = some td ∧ o.baseName = some bn ∧ o.inputPath = some p ∧
      env.metaResult = some m ∧ env.resizeOk = true ∧ env.statOk = true ∧
      env.unlinkFails p = false ∧
      ensureDir fs [] td = (.ok td, fs1, tr1) ∧
      r = ⟨td ++ [bn ++ ".webp"], m.width, m.height, "webp", m.format, env.statSize⟩ ∧
      tr = tr1 ++ [.writeFile (td ++ [bn ++ ".webp"]), .unlink p] ∧
      fs'.fileExists p = false ∧
      fs'.fileExists (td ++ [bn ++ ".webp"]) = true := by
  unfold processImage at h
  split at h
  · exact absurd h error_triple_ne_ok
  · rename_i hargs
    simp only [Bool.or_eq_true, not_or, Bool.not_eq_true] at hargs
    obtain ⟨htdf, hbnf⟩ := hargs
    obtain ⟨td, htd⟩ : ∃ td, o.targetDir = some td := by
      cases hod : o.targetDir with
      | none => rw [hod] at htdf; simp [pathFalsy] at htdf
      | some td => exact ⟨td, rfl⟩
    obtain ⟨bn, hbn⟩ : ∃ bn, o.baseName = some bn := by
      cases hob : o.baseName with
      | none => rw [hob] at hbnf; simp [strFalsy] at hbnf
      | some bn => exact ⟨bn, rfl⟩
    rw [htd, hbn] at h
    simp only [Option.getD_some] at h
    unfold processImageBody at h
    split at h
    · exact absurd h error_triple_ne_ok
    · rename_i v1 fs1 tr1 hens
      split at h
      · exact absurd h cleanupCatch_ne_ok
      · rename_i m hmeta
        split at h
        · exact absurd h cleanupCatch_ne_ok
        · rename_i u2 fs2 tr2 hres
          split at h
          · exact absurd h cleanupCatch_ne_ok
          · rename_i u3 fs3 tr3 hunl
            split at h
            · exact absurd h cleanupCatch_ne_ok
            · rename_i sz fs4 tr4 hstat
              obtain ⟨p, hip, hfp1, hmr⟩ := sharpMetadata_ok hmeta
              rw [hip] at hres hunl
              obtain ⟨p', hp', hfp1', hrok, hdirp, hdiro, hfs2, htr2⟩ :=
                sharpResizeToFile_ok hres
              have hpe : p' = p := Option.some.inj hp'.symm
              rw [hpe] at hfp1'
              have hfp2 : fs2.fileExists p = true := by
                subst hfs2
                simp only [FS.fileExists, decide_eq_true_eq] at hfp1' ⊢
                split
                · exact hfp1'
                · exact List.mem_append_left _ hfp1'
              rw [unlinkOriginal_of_fileExists hfp2] at hunl
              obtain ⟨-, hufails, hfs3, htr3⟩ := unlinkStep_ok hunl
              obtain ⟨hfopt3, hsok, hsz, hfs4, htr4⟩ := statStep_ok hstat
              obtain ⟨hv1, -, -⟩ := ensureDir_ok_inv hens
              rw [hv1] at hens
              simp only [Prod.mk.injEq, Except.ok.injEq] at h
              obtain ⟨hr, hfs', htr'⟩ := h
              refine ⟨td, bn, p, m, fs1, tr1, htd, hbn, hip, hmr, hrok, hsok,
                hufails, hens, ?_, ?_, ?_, ?_⟩
              · rw [← hr, hsz]
              · rw [← htr', htr4, htr3, htr2]
                simp
              · rw [← hfs', hfs4, hfs3]
                simp only [FS.fileExists, decide_eq_false_iff_not]
                exact not_mem_filter_ne fs2.files p
              · rw [← hfs', hfs4]
                exact hfopt3

theorem get?_append_two {α : Type} (l : List α) (a b : α) :
    (l ++ [a, b]).get? l.length = some a ∧ (l ++ [a, b]).get? (l.length + 1) = some b := by
  induction l with
  | nil => exact ⟨rfl, rfl⟩
  | cons x l ih => simpa using ih

/-! ### Concrete instances used by the witnesses -/

/-- A well-behaved environment: no external failures. -/
def envA : Env := ⟨none, ["tmp"], some ⟨10, 7, "jpeg"⟩, true, false, true, 5, fun _ => false⟩

/-- Options naming an input under `a/` and a target directory `b/`. -/
def oA : ImgOptions := ⟨some ["a", "in.jpg"], some ["b"], some "out", 2000, 2000, 85⟩

/-- Initial state for the successful run: the input file and both directories. -/
def fsA : FS := ⟨[["a", "in.jpg"]], [["a"], ["b"]]⟩

/-- Result of the successful run. -/
def resA : ProcessResult := ⟨["b", "out.webp"], 10, 7, "webp", "jpeg", 5⟩

/-- Final state of the successful run. -/
def fsA' : FS := ⟨[["b", "out.webp"]], [["a"], ["b"]]⟩

/-- Trace of the successful run. -/
def trA : List Ev := [.writeFile ["b", "out.webp"], .unlink ["a", "in.jpg"]]

/-! ### Claim theorems -/

/-- Claim C1: for every successful call of `processImage` (one that returns a
result rather than throwing), the original input file at `inputPath` does not
exist in the filesystem state after the call: the source file is deleted on
the success path. -/
theorem claim_C1_processImage_deletes_original (env : Env) (o : ImgOptions)
    (fs : FS) (r : ProcessResult) (fs' : FS) (tr : List Ev)
    (h : processImage env o fs = (.ok r, fs', tr)) :
    ∃ p, o.inputPath = some p ∧ fs'.fileExists p = false := by
  obtain ⟨td, bn, p, m, fs1, tr1, -, -, hip, -, -, -, -, -, -, -, hdel, -⟩ :=
    processImage_ok_inv h
  exact ⟨p, hip, hdel⟩

theorem claim_C1_witness :
    ∃ p, oA.inputPath = some p ∧ fsA'.fileExists p = false :=
  claim_C1_processImage_deletes_original envA oA fsA resA fsA' trA rfl

/-- Claim C5 counterexample: a successful `processImage` call whose output is
written into `targetDir`, which is not the directory of the original input
file; no `baseName.webp` appears alongside the original. -/
theorem claim_C5_counterexample :
    processImage envA oA fsA = (.ok resA, fsA', trA) ∧
    oA.inputPath = some ["a", "in.jpg"] ∧
    resA.processedPath.dropLast ≠ ["a"] ∧
    fsA'.fileExists ["a", "out.webp"] = false := by
  refine ⟨rfl, rfl, by decide, by decide⟩

/-- Claim C5 (amended): for every successful call of `processImage`, the
processed image is written to `targetDir/baseName.webp` (which is alongside
the original only when `targetDir` is the original's directory), and the
write happens before the original file is deleted. -/
theorem claim_C5_amended (env : Env) (o : ImgOptions) (fs : FS)
    (r : ProcessResult) (fs' : FS) (tr : List Ev)
    (h : processImage env o fs = (.ok r, fs', tr)) :
    ∃ td bn p, o.targetDir = some td ∧ o.baseName = some bn ∧
      o.inputPath = some p ∧
      r.processedPath = td ++ [bn ++ ".webp"] ∧
      fs'.fileExists (td ++ [bn ++ ".webp"]) = true ∧
      ∃ i j, i < j ∧ tr.get? i = some (.writeFile (td ++ [bn ++ ".webp"])) ∧
        tr.get? j = some (.unlink p) := by
  obtain ⟨td, bn, p, m, fs1, tr1, htd, hbn, hip, -, -, -, -, -, hr, htr, -, hopt⟩ :=
    processImage_ok_inv h
  refine ⟨td, bn, p, htd, hbn, hip, by rw [hr], hopt,
    tr1.length, tr1.length + 1, Nat.lt_succ_self _, ?_, ?_⟩
  · rw [htr]
    exact (get?_append_two tr1 _ _).1
  · rw [htr]
    exact (get?_append_two tr1 _ _).2

theorem claim_C5_amended_witness :
    ∃ td bn p, oA.targetDir = some td ∧ oA.baseName = some bn ∧
      oA.inputPath = some p ∧
      resA.processedPath = td ++ [bn ++ ".webp"] ∧
      fsA'.fileExists (td ++ [bn ++ ".webp"]) = true ∧
      ∃ i j, i < j ∧ trA.get? i = some (.writeFile (td ++ [bn ++ ".webp"])) ∧
        trA.get? j = some (.unlink p) :=
  claim_C5_amended envA oA fsA resA fsA' trA rfl

/-- Claim C8: a `processImage` call in which `targetDir` or `baseName` is
missing (falsy) throws the error "targetDir and baseName are required for
processImage" before performing any filesystem operation: the state is
returned unchanged and the event trace is empty. -/
theorem claim_C8_arg_check (env : Env) (o : ImgOptions) (fs : FS)
    (h : (pathFalsy o.targetDir || strFalsy o.baseName) = true) :
    processImage env o fs = (.error .required, fs, []) ∧
    Err.message .required = "targetDir and baseName are required for processImage" := by
  refine ⟨?_, rfl⟩
  unfold processImage
  rw [if_pos h]

theorem claim_C8_witness :
    processImage envA ⟨none, none, none, 2000, 2000, 85⟩ fsA =
      (.error .required, fsA, []) ∧
    Err.message .required = "targetDir and baseName are required for processImage" :=
  claim_C8_arg_check envA ⟨none, none, none, 2000, 2000, 85⟩ fsA rfl

/-! ### State-preservation lemmas for the pipeline steps -/

theorem unlinkStep_dirs (env : Env) (fs : FS) (tr : List Ev) (p : FPath) :
    (unlinkStep env fs tr p).2.1.dirs = fs.dirs := by
  unfold unlinkStep
  split
  · split <;> rfl
  · split <;> rfl

theorem unlinkOriginal_dirs (env : Env) (fs : FS) (tr : List Ev) (ip : Option FPath) :
    (unlinkOriginal env fs tr ip).2.1.dirs = fs.dirs := by
  cases ip with
  | none => rfl
  | some p =>
    simp only [unlinkOriginal]
    split
    · exact unlinkStep_dirs env fs tr p
    · rfl

theorem sharpResizeToFile_dirs (env : Env) (fs : FS) (tr : List Ev)
    (origP : Option FPath) (optP : FPath) :
    (sharpResizeToFile env fs tr origP optP).2.1.dirs = fs.dirs := by
  cases origP with
  | none => rfl
  | some p =>
    simp only [sharpResizeToFile]
    split
    · rfl
    · split
      · rfl
      · rfl

theorem statStep_fs (env : Env) (fs : FS) (tr : List Ev) (p : FPath) :
    (statStep env fs tr p).2.1 = fs := by
  unfold statStep
  split <;> rfl

theorem dirExists_congr {fsx fsy : FS} (h : fsx.dirs = fsy.dirs) (q : FPath) :
    fsx.dirExists q = fsy.dirExists q := by
  simp [FS.dirExists, h]

theorem sharpMetadata_of_none {env : Env} {fs : FS} (ip : Option FPath)
    (h : env.metaResult = none) :
    sharpMetadata env fs ip = .error .sharpMetaErr := by
  cases ip with
  | none => rfl
  | some p =>
    simp only [sharpMetadata]
    split
    · rw [h]
    · rfl

theorem ensureDir_ok_of_unblocked {fs : FS} (tr : List Ev) {d : FPath} (hne : d ≠ [])
    (hmk : ∀ q ∈ ancestors d, fs.fileExists q = false) :
    ∃ fs1 tr1, ensureDir fs tr d = (.ok d, fs1, tr1) := by
  have hmk' : fs.mkdirRec d =
      .ok { fs with dirs := fs.dirs ++ (ancestors d).filter (fun q => !fs.dirExists q) } := by
    unfold FS.mkdirRec
    rw [if_neg (by simpa [List.isEmpty_iff] using hne), if_neg ?_]
    intro hcontra
    obtain ⟨q, hq, hfq⟩ := List.any_eq_true.mp hcontra
    rw [hmk q hq] at hfq
    exact Bool.false_ne_true hfq
  unfold ensureDir
  split
  · exact ⟨fs, tr, rfl⟩
  · rw [hmk']
    exact ⟨_, _, rfl⟩

theorem sharpMetadata_files_congr {env : Env} {fsx fsy : FS}
    (h : fsx.files = fsy.files) (ip : Option FPath) :
    sharpMetadata env fsx ip = sharpMetadata env fsy ip := by
  cases ip with
  | none => rfl
  | some p => simp only [sharpMetadata, FS.fileExists, h]

theorem sharpMetadata_ok_of {env : Env} {fs : FS} {p : FPath} {m : SharpMeta}
    (hf : fs.fileExists p = true) (hm : env.metaResult = some m) :
    sharpMetadata env fs (some p) = .ok m := by
  simp [sharpMetadata, hf, hm]

theorem sharpResizeToFile_error_inv {env : Env} {fs : FS} {tr : List Ev}
    {origP : Option FPath} {optP : FPath} {e : Err} {fs' : FS} {tr' : List Ev}
    (h : sharpResizeToFile env fs tr origP optP = (.error e, fs', tr')) :
    e = .sharpResizeErr := by
  cases origP with
  | none =>
    simp only [sharpResizeToFile, Prod.mk.injEq, Except.error.injEq] at h
    exact h.1.symm
  | some p =>
    simp only [sharpResizeToFile] at h
    split at h
    · exact absurd h error_triple_ne_ok.symm
    · split at h
      · simp only [Prod.mk.injEq, Except.error.injEq] at h
        exact h.1.symm
      · simp only [Prod.mk.injEq, Except.error.injEq] at h
        exact h.1.symm

theorem sharpResizeToFile_ok_of (tr : List Ev) {env : Env} {fs : FS} {p optP : FPath}
    (hf : fs.fileExists p = true) (hdp : fs.dirExists optP.dropLast = true)
    (hdo : fs.dirExists optP = false) (hrz : env.resizeOk = true) :
    sharpResizeToFile env fs tr (some p) optP =
      (.ok (), { fs with files := if fs.files.contains optP then fs.files
                                  else fs.files ++ [optP] },
       tr ++ [.writeFile optP]) := by
  simp [sharpResizeToFile, hf, hdp, hdo, hrz]

theorem unlinkStep_ok_of (tr : List Ev) {env : Env} {fs : FS} {p : FPath}
    (hf : fs.fileExists p = true) (hu : env.unlinkFails p = false) :
    unlinkStep env fs tr p =
      (.ok (), { fs with files := fs.files.filter (fun q => decide (q ≠ p)) },
       tr ++ [.unlink p]) := by
  unfold unlinkStep
  rw [if_pos hf, if_neg (by simp [hu])]

theorem statStep_error_of {env : Env} (fs : FS) (tr : List Ev) (p : FPath)
    (hso : env.statOk = false) :
    statStep env fs tr p = (.error .statErr, fs, tr) := by
  unfold statStep
  rw [if_neg (by simp [hso])]

theorem statStep_error_inv {env : Env} {fs : FS} {tr : List Ev} {p : FPath}
    {e : Err} {fs' : FS} {tr' : List Ev}
    (h : statStep env fs tr p = (.error e, fs', tr')) :
    e = .statErr ∧ fs' = fs ∧ tr' = tr := by
  unfold statStep at h
  split at h
  · exact absurd h error_triple_ne_ok.symm
  · simp only [Prod.mk.injEq, Except.error.injEq] at h
    exact ⟨h.1.symm, h.2.1.symm, h.2.2.symm⟩

theorem ensureDir_dirExists_self {fs : FS} {tr : List Ev} {d r : FPath}
    {fs1 : FS} {tr1 : List Ev}
    (h : ensureDir fs tr d = (.ok r, fs1, tr1))
    (hnf : fs.fileExists d = false) (hne : d ≠ []) :
    fs1.dirExists d = true := by
  obtain ⟨-, -, hcase⟩ := ensureDir_ok_inv h
  rcases hcase with ⟨hex, rfl, -⟩ | ⟨hex, -, hdirs, -⟩
  · simp only [FS.existsSync, Bool.or_eq_true] at hex
    rcases hex with hex | hex
    · rw [hnf] at hex
      exact absurd hex (by simp)
    · exact hex
  · have hnd : fs.dirExists d = false :=
      (Bool.or_eq_false_iff.mp (by simpa [FS.existsSync] using hex)).2
    have hdm : d ∈ (ancestors d).filter (fun q => !fs.dirExists q) :=
      List.mem_filter.mpr ⟨self_mem_ancestors hne,
        by rw [Bool.not_eq_true']; exact hnd⟩
    simp only [FS.dirExists, hdirs, decide_eq_true_eq, List.mem_append]
    exact Or.inr hdm

/-- Claim C2: for every call of `processImage` that fails after its argument
check (metadata read, resize/encode, unlink of the original, or size read
throws), the call deletes the partially-written output file at
`targetDir/baseName.webp` if it exists and re-throws the same error to the
caller; the error is never swallowed.  Conjunct 1: every error result leaves
the output absent.  Conjunct 2: a failing metadata read makes the call return
that same error.  Conjunct 3: a failing resize/encode makes the call return
the resize error.  Conjunct 4: a failing size read makes the call return the
stat error.  Conjunct 5: whenever metadata, resize or stat is set to fail,
the call returns an error, never a success.  The hypotheses state that both
arguments are present and non-falsy, that no regular file blocks the target
directory chain, that no directory sits at the output path, and that the
cleanup unlink itself is permitted by the environment to succeed. -/
theorem claim_C2_failure_cleanup (env : Env) (o : ImgOptions) (fs : FS)
    (td : FPath) (bn : String)
    (htd : o.targetDir = some td) (hbn : o.baseName = some bn)
    (htdne : td ≠ []) (hbnne : bn ≠ "")
    (hclean : env.unlinkFails (td ++ [bn ++ ".webp"]) = false)
    (hnodir : fs.dirExists (td ++ [bn ++ ".webp"]) = false)
    (hmk : ∀ q ∈ ancestors td, fs.fileExists q = false) :
    (∀ e fs' tr, processImage env o fs = (.error e, fs', tr) →
        fs'.fileExists (td ++ [bn ++ ".webp"]) = false) ∧
    (∀ e, sharpMetadata env fs o.inputPath = .error e →
        ∃ fs' tr, processImage env o fs = (.error e, fs', tr)) ∧
    (∀ p m, o.inputPath = some p → fs.fileExists p = true →
        env.metaResult = some m → env.resizeOk = false →
        ∃ fs' tr, processImage env o fs = (.error .sharpResizeErr, fs', tr)) ∧
    (∀ p m, o.inputPath = some p → fs.fileExists p = true →
        env.metaResult = some m → env.resizeOk = true →
        env.unlinkFails p = false → env.statOk = false →
        ∃ fs' tr, processImage env o fs = (.error .statErr, fs', tr)) ∧
    ((env.metaResult = none ∨ env.resizeOk = false ∨ env.statOk = false) →
        ∃ e fs' tr, processImage env o fs = (.error e, fs', tr)) := by
  have hcond : (pathFalsy o.targetDir || strFalsy o.baseName) = false := by
    rw [htd, hbn]
    simp only [pathFalsy, strFalsy, Bool.or_eq_false_iff]
    refine ⟨by simpa [List.isEmpty_iff] using htdne, ?_⟩
    rw [Bool.eq_false_iff]
    intro hc
    exact hbnne ((String.isEmpty_iff bn).mp hc)
  have hlen : td.length < (td ++ [bn ++ ".webp"]).length := by
    simp
  refine ⟨?_, ?_, ?_, ?_, ?_⟩
  · intro e fs' tr h
    unfold processImage at h
    rw [hcond] at h
    simp only [Bool.false_eq_true, if_false] at h
    rw [htd, hbn] at h
    simp only [Option.getD_some] at h
    unfold processImageBody at h
    split at h
    · rename_i e1 fs1 tr1 heq
      obtain ⟨fs1', tr1', hok⟩ := ensureDir_ok_of_unblocked [] htdne hmk
      rw [hok] at heq
      exact absurd heq.symm error_triple_ne_ok
    · rename_i v1 fs1 tr1 hens
      have hd1 : fs1.dirExists (td ++ [bn ++ ".webp"]) = false := by
        rw [ensureDir_dirExists_of_longer hens _ hlen]
        exact hnodir
      split at h
      · rename_i e1 hmeta
        obtain ⟨fsx, trx, hcc, hnf⟩ := cleanupCatch_clean e1 hclean hd1
        rw [hcc] at h
        simp only [Prod.mk.injEq, Except.error.injEq] at h
        rw [← h.2.1]
        exact hnf
      · rename_i m hmeta
        split at h
        · rename_i e1 fs2 tr2 hres
          have hd2 : fs2.dirExists (td ++ [bn ++ ".webp"]) = false := by
            have := sharpResizeToFile_dirs env fs1 tr1 o.inputPath (td ++ [bn ++ ".webp"])
            rw [hres] at this
            rw [dirExists_congr this]
            exact hd1
          obtain ⟨fsx, trx, hcc, hnf⟩ := cleanupCatch_clean e1 hclean hd2
          rw [hcc] at h
          simp only [Prod.mk.injEq, Except.error.injEq] at h
          rw [← h.2.1]
          exact hnf
        · rename_i u2 fs2 tr2 hres
          have hd2 : fs2.dirExists (td ++ [bn ++ ".webp"]) = false := by
            have := sharpResizeToFile_dirs env fs1 tr1 o.inputPath (td ++ [bn ++ ".webp"])
            rw [hres] at this
            rw [dirExists_congr this]
            exact hd1
          split at h
          · rename_i e1 fs3 tr3 hunl
            have hd3 : fs3.dirExists (td ++ [bn ++ ".webp"]) = false := by
              have := unlinkOriginal_dirs env fs2 tr2 o.inputPath
              rw [hunl] at this
              rw [dirExists_congr this]
              exact hd2
            obtain ⟨fsx, trx, hcc, hnf⟩ := cleanupCatch_clean e1 hclean hd3
            rw [hcc] at h
            simp only [Prod.mk.injEq, Except.error.injEq] at h
            rw [← h.2.1]
            exact hnf
          · rename_i u3 fs3 tr3 hunl
            have hd3 : fs3.dirExists (td ++ [bn ++ ".webp"]) = false := by
              have := unlinkOriginal_dirs env fs2 tr2 o.inputPath
              rw [hunl] at this
              rw [dirExists_congr this]
              exact hd2
            split at h
            · rename_i e1 fs4 tr4 hstat
              have hd4 : fs4.dirExists (td ++ [bn ++ ".webp"]) = false := by
                have hfs43 : fs4 = fs3 := by
                  have := statStep_fs env fs3 tr3 (td ++ [bn ++ ".webp"])
                  rw [hstat] at this
                  exact this
                rw [hfs43]
                exact hd3
              obtain ⟨fsx, trx, hcc, hnf⟩ := cleanupCatch_clean e1 hclean hd4
              rw [hcc] at h
              simp only [Prod.mk.injEq, Except.error.injEq] at h
              rw [← h.2.1]
              exact hnf
            · exact absurd h error_triple_ne_ok.symm
  · intro e hme
    rcases hP : processImage env o fs with ⟨er, fsz, trz⟩
    unfold processImage at hP
    rw [hcond] at hP
    simp only [Bool.false_eq_true, if_false] at hP
    rw [htd, hbn] at hP
    simp only [Option.getD_some] at hP
    unfold processImageBody at hP
    split at hP
    · rename_i e1 fs1 tr1 heq
      obtain ⟨fs1', tr1', hok⟩ := ensureDir_ok_of_unblocked [] htdne hmk
      rw [hok] at heq
      exact absurd heq.symm error_triple_ne_ok
    · rename_i v1 fs1 tr1 hens
      obtain ⟨-, hfiles1, -⟩ := ensureDir_ok_inv hens
      have hd1 : fs1.dirExists (td ++ [bn ++ ".webp"]) = false := by
        rw [ensureDir_dirExists_of_longer hens _ hlen]
        exact hnodir
      have hme1 : sharpMetadata env fs1 o.inputPath = .error e := by
        rw [sharpMetadata_files_congr hfiles1]
        exact hme
      rw [hme1] at hP
      split at hP
      · rename_i e1 heq1
        have he1 : e1 = e := (Except.error.inj heq1).symm
        obtain ⟨fsx, trx, hcc, -⟩ := cleanupCatch_clean e1 hclean hd1
        rw [hcc] at hP
        refine ⟨fsx, trx, ?_⟩
        rw [← hP, he1]
      · rename_i m heq1
        exact Except.noConfusion heq1
  · intro p m hip hfp hmm hrz
    rcases hP : processImage env o fs with ⟨er, fsz, trz⟩
    unfold processImage at hP
    rw [hcond] at hP
    simp only [Bool.false_eq_true, if_false] at hP
    rw [htd, hbn] at hP
    simp only [Option.getD_some] at hP
    unfold processImageBody at hP
    split at hP
    · rename_i e1 fs1 tr1 heq
      obtain ⟨fs1', tr1', hok⟩ := ensureDir_ok_of_unblocked [] htdne hmk
      rw [hok] at heq
      exact absurd heq.symm error_triple_ne_ok
    · rename_i v1 fs1 tr1 hens
      obtain ⟨-, hfiles1, -⟩ := ensureDir_ok_inv hens
      have hd1 : fs1.dirExists (td ++ [bn ++ ".webp"]) = false := by
        rw [ensureDir_dirExists_of_longer hens _ hlen]
        exact hnodir
      have hfp1 : fs1.fileExists p = true := by
        simp only [FS.fileExists, hfiles1]
        exact hfp
      rw [hip] at hP
      rw [sharpMetadata_ok_of hfp1 hmm] at hP
      split at hP
      · rename_i e1 heq1
        exact Except.noConfusion heq1
      · rename_i m' heq1
        split at hP
        · rename_i e1 fs2 tr2 hres
          have he1 : e1 = Err.sharpResizeErr := sharpResizeToFile_error_inv hres
          have hd2 : fs2.dirExists (td ++ [bn ++ ".webp"]) = false := by
            have hdd := sharpResizeToFile_dirs env fs1 tr1 (some p) (td ++ [bn ++ ".webp"])
            rw [hres] at hdd
            rw [dirExists_congr hdd]
            exact hd1
          obtain ⟨fsx, trx, hcc, -⟩ := cleanupCatch_clean e1 hclean hd2
          rw [hcc] at hP
          refine ⟨fsx, trx, ?_⟩
          rw [← hP, he1]
        · rename_i u2 fs2 tr2 hres
          obtain ⟨p', -, -, hrok', -, -, -, -⟩ := sharpResizeToFile_ok hres
          rw [hrok'] at hrz
          exact absurd hrz (by simp)
  · intro p m hip hfp hmm hrz hup hso
    rcases hP : processImage env o fs with ⟨er, fsz, trz⟩
    unfold processImage at hP
    rw [hcond] at hP
    simp only [Bool.false_eq_true, if_false] at hP
    rw [htd, hbn] at hP
    simp only [Option.getD_some] at hP
    unfold processImageBody at hP
    split at hP
    · rename_i e1 fs1 tr1 heq
      obtain ⟨fs1', tr1', hok⟩ := ensureDir_ok_of_unblocked [] htdne hmk
      rw [hok] at heq
      exact absurd heq.symm error_triple_ne_ok
    · rename_i v1 fs1 tr1 hens
      obtain ⟨-, hfiles1, -⟩ := ensureDir_ok_inv hens
      have hd1 : fs1.dirExists (td ++ [bn ++ ".webp"]) = false := by
        rw [ensureDir_dirExists_of_longer hens _ hlen]
        exact hnodir
      have hfp1 : fs1.fileExists p = true := by
        simp only [FS.fileExists, hfiles1]
        exact hfp
      have hdt1 : fs1.dirExists td = true :=
        ensureDir_dirExists_self hens (hmk td (self_mem_ancestors htdne)) htdne
      have hdrop : (td ++ [bn ++ ".webp"]).dropLast = td := by simp
      rw [hip] at hP
      rw [sharpMetadata_ok_of hfp1 hmm] at hP
      split at hP
      · rename_i e1 heq1
        exact Except.noConfusion heq1
      · rename_i m' heq1
        rw [sharpResizeToFile_ok_of tr1 hfp1 (by rw [hdrop]; exact hdt1) hd1 hrz] at hP
        split at hP
        · rename_i e1 fs2 tr2 heq2
          exact absurd heq2.symm error_triple_ne_ok
        · rename_i u2 fs2 tr2 heq2
          have hfs2 : fs2 = { fs1 with
              files := if fs1.files.contains (td ++ [bn ++ ".webp"]) then fs1.files
                       else fs1.files ++ [td ++ [bn ++ ".webp"]] } := by
            have hc := congrArg (fun x => x.2.1) heq2
            exact hc.symm
          have hfp2 : fs2.fileExists p = true := by
            rw [hfs2]
            simp only [FS.fileExists, decide_eq_true_eq]
            have hmem : p ∈ fs1.files := by
              simpa [FS.fileExists] using hfp1
            split
            · exact hmem
            · exact List.mem_append_left _ hmem
          rw [unlinkOriginal_of_fileExists hfp2] at hP
          rw [unlinkStep_ok_of tr2 hfp2 hup] at hP
          split at hP
          · rename_i e1 fs3 tr3 heq3
            exact absurd heq3.symm error_triple_ne_ok
          · rename_i u3 fs3 tr3 heq3
            have hfs3 : fs3 = { fs2 with
                files := fs2.files.filter (fun q => decide (q ≠ p)) } := by
              have hc := congrArg (fun x => x.2.1) heq3
              exact hc.symm
            rw [statStep_error_of fs3 tr3 (td ++ [bn ++ ".webp"]) hso] at hP
            split at hP
            · rename_i e1 fs4 tr4 heq4
              have he1 : e1 = Err.statErr := by
                have hc := congrArg (fun x => x.1) heq4
                exact (Except.error.inj hc).symm
              have hfs4 : fs4 = fs3 := by
                have hc := congrArg (fun x => x.2.1) heq4
                exact hc.symm
              have hd4 : fs4.dirExists (td ++ [bn ++ ".webp"]) = false := by
                have hdd3 : fs3.dirs = fs2.dirs := by
                  rw [hfs3]
                have hdd2 : fs2.dirs = fs1.dirs := by
                  rw [hfs2]
                rw [hfs4, dirExists_congr hdd3, dirExists_congr hdd2]
                exact hd1
              obtain ⟨fsx, trx, hcc, -⟩ := cleanupCatch_clean e1 hclean hd4
              rw [hcc] at hP
              refine ⟨fsx, trx, ?_⟩
              rw [← hP, he1]
            · rename_i sz fs4 tr4 heq4
              have hc := congrArg (fun x => x.1) heq4
              exact Except.noConfusion hc
  · intro hbad
    rcases hP : processImage env o fs with ⟨er, fsz, trz⟩
    cases er with
    | ok r =>
      obtain ⟨-, -, -, m', -, -, -, -, -, hmr, hrok, hsok, -, -, -, -, -, -⟩ :=
        processImage_ok_inv hP
      rcases hbad with hb | hb | hb
      · exact Option.noConfusion (hmr.symm.trans hb)
      · exact absurd (hrok.symm.trans hb) (by simp)
      · exact absurd (hsok.symm.trans hb) (by simp)
    | error e => exact ⟨e, fsz, trz, rfl⟩

/-- An environment in which the image library fails: metadata reads throw and
the resize pipeline fails leaving a half-written output behind. -/
def envB : Env := ⟨none, ["tmp"], none, false, true, true, 5, fun _ => false⟩

/-- An environment in which every unlink of an existing file fails. -/
def envC : Env := ⟨none, ["tmp"], none, true, false, true, 5, fun _ => true⟩

/-- An environment in which only the size read fails: metadata and resize
succeed, `fs.promises.stat` throws. -/
def envD : Env := ⟨none, ["tmp"], some ⟨10, 7, "jpeg"⟩, true, false, false, 5, fun _ => false⟩

theorem claim_C2_witness :
    (∀ e fs' tr, processImage envD oA fsA = (.error e, fs', tr) →
        fs'.fileExists (["b"] ++ ["out" ++ ".webp"]) = false) ∧
    (∀ e, sharpMetadata envD fsA oA.inputPath = .error e →
        ∃ fs' tr, processImage envD oA fsA = (.error e, fs', tr)) ∧
    (∀ p m, oA.inputPath = some p → fsA.fileExists p = true →
        envD.metaResult = some m → envD.resizeOk = false →
        ∃ fs' tr, processImage envD oA fsA = (.error .sharpResizeErr, fs', tr)) ∧
    (∀ p m, oA.inputPath = some p → fsA.fileExists p = true →
        envD.metaResult = some m → envD.resizeOk = true →
        envD.unlinkFails p = false → envD.statOk = false →
        ∃ fs' tr, processImage envD oA fsA = (.error .statErr, fs', tr)) ∧
    ((envD.metaResult = none ∨ envD.resizeOk = false ∨ envD.statOk = false) →
        ∃ e fs' tr, processImage envD oA fsA = (.error e, fs', tr)) :=
  claim_C2_failure_cleanup envD oA fsA ["b"] "out" rfl rfl (by decide) (by decide)
    rfl (by decide) (by decide)

/-! ### Claims about ensureDirectoriesExist -/

theorem ensureLoop_single (recursive : Bool) (fs : FS) (st : Stats) (d : FPath) :
    ensureLoop recursive fs st [d] =
      ((ensureOne recursive fs st d).2, (ensureOne recursive fs st d).1) := rfl

theorem mkdirNonrec_ok_inv {fs : FS} {d : FPath} {fs2 : FS}
    (h : fs.mkdirNonrec d = .ok fs2) :
    fs2.files = fs.files ∧ fs2.dirs = fs.dirs ++ [d] := by
  unfold FS.mkdirNonrec at h
  split at h
  · simp at h
  · split at h
    · simp at h
    · split at h
      · simp at h
      · simp only [Except.ok.injEq] at h
        subst h
        exact ⟨rfl, rfl⟩

theorem mkdir_ok_dirExists {fs : FS} {d : FPath} {fs2 : FS} (recursive : Bool)
    (hex : fs.existsSync d = false)
    (h : (if recursive then fs.mkdirRec d else fs.mkdirNonrec d) = .ok fs2) :
    fs2.dirExists d = true := by
  have hnd : fs.dirExists d = false :=
    (Bool.or_eq_false_iff.mp (by simpa [FS.existsSync] using hex)).2
  cases recursive with
  | true =>
    rw [if_pos rfl] at h
    obtain ⟨hne, -, hdirs⟩ := mkdirRec_ok_inv h
    have hdm : d ∈ (ancestors d).filter (fun q => !fs.dirExists q) :=
      List.mem_filter.mpr ⟨self_mem_ancestors hne, by simp [hnd]⟩
    simp only [FS.dirExists, hdirs, decide_eq_true_eq, List.mem_append]
    exact Or.inr hdm
  | false =>
    rw [if_neg (by simp)] at h
    obtain ⟨-, hdirs⟩ := mkdirNonrec_ok_inv h
    simp [FS.dirExists, hdirs]

/-- Claim C3: directory provisioning is idempotent.  After a successful first
call of `ensureDirectoriesExist` on a path (no failure counted), a second call
on the same path from the resulting state counts the directory as existing,
not created, fails nothing, and leaves the filesystem state unchanged. -/
theorem claim_C3_ensureDirectoriesExist_idempotent (d : FPath) (opts : EnsureOpts)
    (fs fs1 : FS) (st1 : Stats)
    (h : ensureDirectoriesExist [d] opts fs = (st1, fs1)) (hok : st1.failed = 0) :
    ensureDirectoriesExist [d] opts fs1 = (⟨0, 1, 0⟩, fs1) := by
  unfold ensureDirectoriesExist at h ⊢
  rw [ensureLoop_single] at h ⊢
  have hex2 : fs1.existsSync d = true := by
    by_cases hex : fs.existsSync d = true
    · unfold ensureOne at h
      rw [if_pos hex] at h
      simp only [Prod.mk.injEq] at h
      rw [← h.2]
      exact hex
    · unfold ensureOne at h
      rw [if_neg hex] at h
      rcases hmk : (if opts.recursive then fs.mkdirRec d else fs.mkdirNonrec d) with fs2 | e
      · rw [hmk] at h
        simp only [Prod.mk.injEq] at h
        rw [← h.1] at hok
        simp at hok
      · rw [hmk] at h
        simp only [Prod.mk.injEq] at h
        rw [← h.2]
        have := mkdir_ok_dirExists opts.recursive (by simpa using hex) hmk
        simp [FS.existsSync, this]
  unfold ensureOne
  rw [if_pos hex2]

theorem claim_C3_witness :
    ensureDirectoriesExist [["x"]] ⟨false, true⟩ ⟨[], [["x"]]⟩ = (⟨0, 1, 0⟩, ⟨[], [["x"]]⟩) :=
  claim_C3_ensureDirectoriesExist_idempotent ["x"] ⟨false, true⟩ ⟨[], []⟩
    ⟨[], [["x"]]⟩ ⟨1, 0, 0⟩ rfl rfl

theorem ensureLoop_count (recursive : Bool) (ds : List FPath) :
    ∀ (fs : FS) (st : Stats),
      (ensureLoop recursive fs st ds).1.created +
        (ensureLoop recursive fs st ds).1.existing +
        (ensureLoop recursive fs st ds).1.failed =
      st.created + st.existing + st.failed + ds.length := by
  induction ds with
  | nil =>
    intro fs st
    simp [ensureLoop]
  | cons d rest ih =>
    intro fs st
    have hstep : ensureLoop recursive fs st (d :: rest) =
        ensureLoop recursive (ensureOne recursive fs st d).1
          (ensureOne recursive fs st d).2 rest := rfl
    rw [hstep, ih]
    unfold ensureOne
    split
    · simp
      omega
    · split
      · simp
        omega
      · simp
        omega

/-- Claim C6: the directory-creation helper swallows every failure — each
input directory is accounted for in exactly one of the three counters and the
statistics record is always returned, never an exception — while the
image-processing and file-deletion operations surface their failures as
errors to the caller. -/
theorem claim_C6_error_policy (dirs : List FPath) (opts : EnsureOpts) (fs : FS) :
    ((ensureDirectoriesExist dirs opts fs).1.created +
      (ensureDirectoriesExist dirs opts fs).1.existing +
      (ensureDirectoriesExist dirs opts fs).1.failed = dirs.length) ∧
    (∃ e fs' tr, processImage envB oA fsA = (.error e, fs', tr)) ∧
    (∃ e fs' tr, deleteFile envC (.jstr ["a", "f"]) ⟨[["a", "f"]], []⟩ =
        (.error e, fs', tr)) := by
  refine ⟨?_, ⟨.sharpMetaErr, fsA, [], rfl⟩, ⟨.eperm, ⟨[["a", "f"]], []⟩, [], rfl⟩⟩
  unfold ensureDirectoriesExist
  rw [ensureLoop_count]
  simp

/-- Claim C7: `getUploadDir` returns the join of the base upload directory —
the `UPLOAD_DIR` environment variable when set to a non-empty value, the
configured temporary-photos directory otherwise — with
`user_<userId>/memory_<memoryId>`, and that directory exists when the call
returns. -/
theorem claim_C7_getUploadDir (env : Env) (fs : FS) (userId memoryId : String)
    (hmk : ∀ q ∈ ancestors (jsOrPath env.uploadDirEnv env.tempPhotosDir ++
        ["user_" ++ userId] ++ ["memory_" ++ memoryId]), fs.fileExists q = false) :
    (∃ fs' tr, getUploadDir env fs userId memoryId =
        (.ok (jsOrPath env.uploadDirEnv env.tempPhotosDir ++
          ["user_" ++ userId] ++ ["memory_" ++ memoryId]), fs', tr) ∧
      fs'.dirExists (jsOrPath env.uploadDirEnv env.tempPhotosDir ++
        ["user_" ++ userId] ++ ["memory_" ++ memoryId]) = true) ∧
    (env.uploadDirEnv = none →
      jsOrPath env.uploadDirEnv env.tempPhotosDir = env.tempPhotosDir) ∧
    (∀ b, env.uploadDirEnv = some b → b ≠ [] →
      jsOrPath env.uploadDirEnv env.tempPhotosDir = b) := by
  refine ⟨?_, ?_, ?_⟩
  · have hne : (jsOrPath env.uploadDirEnv env.tempPhotosDir ++
        ["user_" ++ userId] ++ ["memory_" ++ memoryId]) ≠ [] := by simp
    obtain ⟨fs1, tr1, hok⟩ := ensureDir_ok_of_unblocked [] hne hmk
    refine ⟨fs1, tr1, hok, ?_⟩
    obtain ⟨-, -, hcase⟩ := ensureDir_ok_inv hok
    rcases hcase with ⟨hex, rfl, -⟩ | ⟨hex, -, hdirs, -⟩
    · have hf := hmk _ (self_mem_ancestors hne)
      simp only [FS.existsSync, Bool.or_eq_true] at hex
      rcases hex with hex | hex
      · rw [hf] at hex
        exact absurd hex (by simp)
      · exact hex
    · have hnd : fs.dirExists (jsOrPath env.uploadDirEnv env.tempPhotosDir ++
          ["user_" ++ userId] ++ ["memory_" ++ memoryId]) = false :=
        (Bool.or_eq_false_iff.mp (by simpa [FS.existsSync] using hex)).2
      have hdm : (jsOrPath env.uploadDirEnv env.tempPhotosDir ++
            ["user_" ++ userId] ++ ["memory_" ++ memoryId]) ∈
          (ancestors (jsOrPath env.uploadDirEnv env.tempPhotosDir ++
            ["user_" ++ userId] ++ ["memory_" ++ memoryId])).filter
            (fun q => !fs.dirExists q) :=
        List.mem_filter.mpr ⟨self_mem_ancestors hne,
          by rw [Bool.not_eq_true']; exact hnd⟩
      simp only [FS.dirExists, hdirs, decide_eq_true_eq, List.mem_append]
      exact Or.inr hdm
  · intro h
    rw [h]
    rfl
  · intro b hb hbne
    rw [hb]
    simp [jsOrPath, List.isEmpty_iff, hbne]

theorem claim_C7_witness :
    (∃ fs' tr, getUploadDir envA ⟨[], []⟩ "u1" "m1" =
        (.ok (jsOrPath envA.uploadDirEnv envA.tempPhotosDir ++
          ["user_" ++ "u1"] ++ ["memory_" ++ "m1"]), fs', tr) ∧
      fs'.dirExists (jsOrPath envA.uploadDirEnv envA.tempPhotosDir ++
        ["user_" ++ "u1"] ++ ["memory_" ++ "m1"]) = true) ∧
    (envA.uploadDirEnv = none →
      jsOrPath envA.uploadDirEnv envA.tempPhotosDir = envA.tempPhotosDir) ∧
    (∀ b, envA.uploadDirEnv = some b → b ≠ [] →
      jsOrPath envA.uploadDirEnv envA.tempPhotosDir = b) :=
  claim_C7_getUploadDir envA ⟨[], []⟩ "u1" "m1" (by decide)

/-! ### Claims about the deletion helpers -/

theorem unlinkStep_error_inv {env : Env} {fs : FS} {tr : List Ev} {p : FPath}
    {e : Err} {fs' : FS} {tr' : List Ev}
    (h : unlinkStep env fs tr p = (.error e, fs', tr')) : fs' = fs ∧ tr' = tr := by
  unfold unlinkStep at h
  split at h
  · split at h
    · simp only [Prod.mk.injEq] at h
      exact ⟨h.2.1.symm, h.2.2.symm⟩
    · exact absurd h error_triple_ne_ok.symm
  · split at h
    · simp only [Prod.mk.injEq] at h
      exact ⟨h.2.1.symm, h.2.2.symm⟩
    · simp only [Prod.mk.injEq] at h
      exact ⟨h.2.1.symm, h.2.2.symm⟩

theorem readdirStep_ok_inv {fs : FS} {tr : List Ev} {d : FPath} {n : Nat}
    {fs' : FS} {tr' : List Ev}
    (h : readdirStep fs tr d = (.ok n, fs', tr')) :
    fs.dirExists d = true ∧ n = fs.childCount d ∧ fs' = fs ∧ tr' = tr := by
  unfold readdirStep at h
  split at h
  · rename_i hd
    simp only [Prod.mk.injEq, Except.ok.injEq] at h
    exact ⟨hd, h.1.symm, h.2.1.symm, h.2.2.symm⟩
  · exact absurd h error_triple_ne_ok

theorem readdirStep_error_inv {fs : FS} {tr : List Ev} {d : FPath} {e : Err}
    {fs' : FS} {tr' : List Ev}
    (h : readdirStep fs tr d = (.error e, fs', tr')) : fs' = fs ∧ tr' = tr := by
  unfold readdirStep at h
  split at h
  · exact absurd h error_triple_ne_ok.symm
  · simp only [Prod.mk.injEq] at h
    exact ⟨h.2.1.symm, h.2.2.symm⟩

theorem rmdirStep_tr (fs : FS) (tr : List Ev) (d : FPath) :
    (rmdirStep fs tr d).2.2 = tr ++ [.rmdir d (fs.childCount d)] := by
  unfold rmdirStep
  split
  · split
    · rfl
    · rfl
  · rfl

/-- Claim C4: in every call of `deleteFileAndEmptyParent`, the parent
directory is removed only when it is empty after the file has been deleted:
every `rmdir` invocation recorded in the trace happened while the directory
held zero entries. -/
theorem claim_C4_rmdir_only_when_empty (env : Env) (v : JVal) (fs : FS)
    (d : FPath) (n : Nat)
    (h : Ev.rmdir d n ∈ (deleteFileAndEmptyParent env v fs).2.2) : n = 0 := by
  cases v with
  | jstr p =>
    simp only [deleteFileAndEmptyParent] at h
    split at h
    · split at h
      · split at h
        · rename_i e fs1 tr1 hunl
          obtain ⟨-, rfl⟩ := unlinkStep_error_inv hunl
          simp at h
        · rename_i u fs1 tr1 hunl
          obtain ⟨-, -, -, htr1⟩ := unlinkStep_ok hunl
          split at h
          · rename_i e fs2 tr2 hrd
            obtain ⟨-, rfl⟩ := readdirStep_error_inv hrd
            rw [htr1] at h
            simp at h
          · rename_i n0 fs2 tr2 hrd
            obtain ⟨hdir, hn0, rfl, rfl⟩ := readdirStep_ok_inv hrd
            split at h
            · rename_i hn0z
              have htr3 := rmdirStep_tr fs2 tr2 p.dropLast
              split at h
              · rename_i e fs3 tr3 hrm
                rw [hrm] at htr3
                rw [htr3, htr1] at h
                simp only [List.nil_append, List.mem_append, List.mem_singleton] at h
                rcases h with h | h
                · exact absurd h (by simp)
                · have := (Ev.rmdir.inj h).2
                  rw [this, ← hn0]
                  exact eq_of_beq hn0z
              · rename_i u3 fs3 tr3 hrm
                rw [hrm] at htr3
                rw [htr3, htr1] at h
                simp only [List.nil_append, List.mem_append, List.mem_singleton] at h
                rcases h with h | h
                · exact absurd h (by simp)
                · have := (Ev.rmdir.inj h).2
                  rw [this, ← hn0]
                  exact eq_of_beq hn0z
            · rw [htr1] at h
              simp at h
      · simp at h
    · simp at h
  | jnull => simp [deleteFileAndEmptyParent] at h
  | jundef => simp [deleteFileAndEmptyParent] at h
  | jbool b => simp [deleteFileAndEmptyParent] at h
  | jnum m => simp [deleteFileAndEmptyParent] at h
  | jarr xs => simp [deleteFileAndEmptyParent] at h

theorem claim_C4_witness :
    Ev.rmdir ["u"] 0 ∈
      (deleteFileAndEmptyParent envA (.jstr ["u", "f.txt"])
        ⟨[["u", "f.txt"]], [["u"]]⟩).2.2 ∧
    (0 : Nat) = 0 :=
  ⟨by decide,
   claim_C4_rmdir_only_when_empty envA (.jstr ["u", "f.txt"])
     ⟨[["u", "f.txt"]], [["u"]]⟩ ["u"] 0 (by decide)⟩

theorem deleteFilesLoop_append (env : Env) (xs ys : List JVal) :
    ∀ (fs : FS) (tr : List Ev),
      deleteFilesLoop env fs tr (xs ++ ys) =
        deleteFilesLoop env (deleteFilesLoop env fs tr xs).1
          (deleteFilesLoop env fs tr xs).2 ys := by
  induction xs with
  | nil => intro fs tr; rfl
  | cons f rest ih =>
    intro fs tr
    have h1 : deleteFilesLoop env fs tr ((f :: rest) ++ ys) =
        deleteFilesLoop env (deleteFileSwallow env fs tr f).1
          (deleteFileSwallow env fs tr f).2 (rest ++ ys) := rfl
    have h2 : deleteFilesLoop env fs tr (f :: rest) =
        deleteFilesLoop env (deleteFileSwallow env fs tr f).1
          (deleteFileSwallow env fs tr f).2 rest := rfl
    rw [h1, ih, h2]

theorem deleteFileSwallow_of_unlinkFails {env : Env} {p : FPath}
    (hf : env.unlinkFails p = true) (fs : FS) (tr : List Ev) :
    deleteFileSwallow env fs tr (.jstr p) = (fs, tr) := by
  simp only [deleteFileSwallow]
  split
  · split
    · rename_i hex
      unfold unlinkStep
      by_cases hfe : fs.fileExists p = true
      · rw [if_pos hfe, if_pos hf]
      · rw [if_neg hfe]
        split
        · rfl
        · rfl
    · rfl
  · rfl

/-- Claim C9: `deleteFiles` never throws and forgets no element.  A non-array
argument is wrapped into a singleton list; processing a prefix and then the
rest agrees with processing the whole list, so a per-file error never aborts
the loop; and an element whose unlink fails leaves the state untouched while
the remaining elements are still processed. -/
theorem claim_C9_deleteFiles_total :
    (∀ (env : Env) (fs : FS) (xs ys : List JVal),
      deleteFiles env (.jarr (xs ++ ys)) fs =
        deleteFilesLoop env (deleteFiles env (.jarr xs) fs).1
          (deleteFiles env (.jarr xs) fs).2 ys) ∧
    (∀ (env : Env) (fs : FS) (v : JVal), (∀ xs, v ≠ JVal.jarr xs) →
      deleteFiles env v fs = deleteFilesLoop env fs [] [v]) ∧
    (∀ (env : Env) (fs : FS) (tr : List Ev) (p : FPath) (rest : List JVal),
      env.unlinkFails p = true →
      deleteFilesLoop env fs tr (JVal.jstr p :: rest) =
        deleteFilesLoop env fs tr rest) := by
  refine ⟨?_, ?_, ?_⟩
  · intro env fs xs ys
    unfold deleteFiles
    simp only [JVal.toElems]
    exact deleteFilesLoop_append env xs ys fs []
  · intro env fs v hv
    unfold deleteFiles
    cases v with
    | jarr xs => exact absurd rfl (hv xs)
    | jnull => rfl
    | jundef => rfl
    | jbool b => rfl
    | jnum m => rfl
    | jstr p => rfl
  · intro env fs tr p rest hf
    have h2 : deleteFilesLoop env fs tr (JVal.jstr p :: rest) =
        deleteFilesLoop env (deleteFileSwallow env fs tr (.jstr p)).1
          (deleteFileSwallow env fs tr (.jstr p)).2 rest := rfl
    rw [h2, deleteFileSwallow_of_unlinkFails hf]

theorem claim_C9_witness :
    deleteFilesLoop envC ⟨[["a", "f"]], []⟩ []
        [JVal.jstr ["a", "f"], JVal.jstr ["a", "g"]] =
      deleteFilesLoop envC ⟨[["a", "f"]], []⟩ [] [JVal.jstr ["a", "g"]] :=
  claim_C9_deleteFiles_total.2.2 envC ⟨[["a", "f"]], []⟩ []
    ["a", "f"] [JVal.jstr ["a", "g"]] rfl

theorem deleteFile_jstr (env : Env) (p : FPath) (fs : FS) :
    deleteFile env (.jstr p) fs =
      if p.isEmpty then (.ok false, fs, [])
      else if fs.fileExists p then
        (if env.unlinkFails p then (.error .eperm, fs, [])
         else (.ok true,
           { fs with files := fs.files.filter (fun q => decide (q ≠ p)) },
           [.unlink p]))
      else if fs.dirExists p then (.error .eisdir, fs, [])
      else (.ok false, fs, []) := by
  by_cases hp : p.isEmpty = true
  · simp [deleteFile, hp]
  · by_cases hf : fs.fileExists p = true
    · by_cases hu : env.unlinkFails p = true
      · simp [deleteFile, unlinkStep, FS.existsSync, hp, hf, hu]
      · simp [deleteFile, unlinkStep, FS.existsSync, hp, hf, hu]
    · by_cases hd : fs.dirExists p = true
      · simp [deleteFile, unlinkStep, FS.existsSync, hp, hf, hd]
      · simp [deleteFile, unlinkStep, FS.existsSync, hp, hf, hd]

theorem deleteFile_not_jstr {env : Env} {v : JVal} {fs : FS}
    (hv : ∀ p, v ≠ JVal.jstr p) :
    deleteFile env v fs = (.ok false, fs, []) := by
  cases v with
  | jstr p => exact absurd rfl (hv p)
  | jnull => rfl
  | jundef => rfl
  | jbool b => rfl
  | jnum m => rfl
  | jarr xs => rfl

/-- Claim C10: `deleteFile` returns `true` exactly when the argument is a
non-empty string naming an existing regular file whose unlink succeeds; it
returns `false` without throwing on a falsy or non-string argument or a
missing entry; and it throws exactly when an entry exists but its unlink
fails (including the directory case, where unlink always fails). -/
theorem claim_C10_deleteFile_spec (env : Env) (v : JVal) (fs : FS) :
    ((deleteFile env v fs).1 = .ok true ↔
      (∃ p, v = JVal.jstr p ∧ p ≠ [] ∧ fs.fileExists p = true ∧
        env.unlinkFails p = false)) ∧
    ((∃ e, (deleteFile env v fs).1 = .error e) ↔
      (∃ p, v = JVal.jstr p ∧ p ≠ [] ∧ fs.existsSync p = true ∧
        (fs.fileExists p = false ∨ env.unlinkFails p = true))) ∧
    (∀ p, v = JVal.jstr p → p ≠ [] → fs.existsSync p = false →
      deleteFile env v fs = (.ok false, fs, [])) ∧
    ((∀ p, v ≠ JVal.jstr p) → deleteFile env v fs = (.ok false, fs, [])) := by
  by_cases hstr : ∃ p, v = JVal.jstr p
  case neg =>
    have hv : ∀ p, v ≠ JVal.jstr p := fun p hc => hstr ⟨p, hc⟩
    rw [deleteFile_not_jstr hv]
    refine ⟨?_, ?_, ?_, fun _ => rfl⟩
    · constructor
      · intro hc
        exact absurd hc (by simp)
      · rintro ⟨p, hp, -⟩
        exact absurd hp (hv p)
    · constructor
      · rintro ⟨e, he⟩
        exact absurd he (by simp)
      · rintro ⟨p, hp, -⟩
        exact absurd hp (hv p)
    · intro p hp
      exact absurd hp (hv p)
  case pos =>
    obtain ⟨p, rfl⟩ := hstr
    rw [deleteFile_jstr]
    by_cases hp : p.isEmpty = true
    · rw [if_pos hp]
      have hpe : p = [] := List.isEmpty_iff.mp hp
      refine ⟨?_, ?_, ?_, fun hv => absurd rfl (hv p)⟩
      · constructor
        · intro hc
          exact absurd hc (by simp)
        · rintro ⟨q, hq, hne, -⟩
          exact absurd ((JVal.jstr.inj hq).symm.trans hpe) hne
      · constructor
        · rintro ⟨e, he⟩
          exact absurd he (by simp)
        · rintro ⟨q, hq, hne, -⟩
          exact absurd ((JVal.jstr.inj hq).symm.trans hpe) hne
      · intro q hq hne hex
        exact absurd ((JVal.jstr.inj hq).symm.trans hpe) hne
    · rw [if_neg hp]
      have pne : p ≠ [] := fun hc => hp (by rw [hc]; rfl)
      by_cases hf : fs.fileExists p = true
      · rw [if_pos hf]
        by_cases hu : env.unlinkFails p = true
        · rw [if_pos hu]
          refine ⟨?_, ?_, ?_, fun hv => absurd rfl (hv p)⟩
          · constructor
            · intro hc
              exact absurd hc (by simp)
            · rintro ⟨q, hq, -, -, hu2⟩
              rw [← JVal.jstr.inj hq] at hu2
              exact absurd (hu2.symm.trans hu) (by simp)
          · constructor
            · intro _
              exact ⟨p, rfl, pne, by simp [FS.existsSync, hf], Or.inr hu⟩
            · intro _
              exact ⟨.eperm, rfl⟩
          · intro q hq hne hex
            rw [← JVal.jstr.inj hq] at hex
            simp [FS.existsSync, hf] at hex
        · rw [if_neg hu]
          refine ⟨?_, ?_, ?_, fun hv => absurd rfl (hv p)⟩
          · constructor
            · intro _
              exact ⟨p, rfl, pne, hf, Bool.eq_false_iff.mpr hu⟩
            · intro _
              rfl
          · constructor
            · rintro ⟨e, he⟩
              exact absurd he (by simp)
            · rintro ⟨q, hq, -, -, hor⟩
              rw [← JVal.jstr.inj hq] at hor
              rcases hor with h1 | h1
              · rw [hf] at h1
                exact absurd h1 (by simp)
              · exact absurd h1 hu
          · intro q hq hne hex
            rw [← JVal.jstr.inj hq] at hex
            simp [FS.existsSync, hf] at hex
      · rw [if_neg hf]
        by_cases hd : fs.dirExists p = true
        · rw [if_pos hd]
          refine ⟨?_, ?_, ?_, fun hv => absurd rfl (hv p)⟩
          · constructor
            · intro hc
              exact absurd hc (by simp)
            · rintro ⟨q, hq, -, hfq, -⟩
              rw [← JVal.jstr.inj hq] at hfq
              exact absurd hfq hf
          · constructor
            · intro _
              exact ⟨p, rfl, pne, by simp [FS.existsSync, hd],
                Or.inl (Bool.eq_false_iff.mpr hf)⟩
            · intro _
              exact ⟨.eisdir, rfl⟩
          · intro q hq hne hex
            rw [← JVal.jstr.inj hq] at hex
            simp [FS.existsSync, hd] at hex
        · rw [if_neg hd]
          refine ⟨?_, ?_, fun q hq hne hex => rfl, fun hv => absurd rfl (hv p)⟩
          · constructor
            · intro hc
              exact absurd hc (by simp)
            · rintro ⟨q, hq, -, hfq, -⟩
              rw [← JVal.jstr.inj hq] at hfq
              exact absurd hfq hf
          · constructor
            · rintro ⟨e, he⟩
              exact absurd he (by simp)
            · rintro ⟨q, hq, -, hex, -⟩
              rw [← JVal.jstr.inj hq] at hex
              simp [FS.existsSync, Bool.eq_false_iff.mpr hf,
                Bool.eq_false_iff.mpr hd] at hex

theorem claim_C10_witness :
    ((deleteFile envC (.jstr ["a", "f"]) ⟨[["a", "f"]], []⟩).1 = .ok true ↔
      (∃ p, JVal.jstr ["a", "f"] = JVal.jstr p ∧ p ≠ [] ∧
        FS.fileExists ⟨[["a", "f"]], []⟩ p = true ∧
        envC.unlinkFails p = false)) ∧
    ((∃ e, (deleteFile envC (.jstr ["a", "f"]) ⟨[["a", "f"]], []⟩).1 = .error e) ↔
      (∃ p, JVal.jstr ["a", "f"] = JVal.jstr p ∧ p ≠ [] ∧
        FS.existsSync ⟨[["a", "f"]], []⟩ p = true ∧
        (FS.fileExists ⟨[["a", "f"]], []⟩ p = false ∨ envC.unlinkFails p = true))) ∧
    (∀ p, JVal.jstr ["a", "f"] = JVal.jstr p → p ≠ [] →
      FS.existsSync ⟨[["a", "f"]], []⟩ p = false →
      deleteFile envC (.jstr ["a", "f"]) ⟨[["a", "f"]], []⟩ =
        (.ok false, ⟨[["a", "f"]], []⟩, [])) ∧
    ((∀ p, JVal.jstr ["a", "f"] ≠ JVal.jstr p) →
      deleteFile envC (.jstr ["a", "f"]) ⟨[["a", "f"]], []⟩ =
        (.ok false, ⟨[["a", "f"]], []⟩, [])) :=
  claim_C10_deleteFile_spec envC (.jstr ["a", "f"]) ⟨[["a", "f"]], []⟩
